import Mathlib

/-!
Shallow embedding of the tinydb `Table` and `LRUCache` components
(`tinydb/table.py`, `tinydb/utils.py`).

Python dicts preserve insertion order, so a table (mapping document ID
to document content) and an `OrderedDict` are both modelled as
association lists in insertion order.  Document content is modelled as
a string-keyed association list of integer values; queries are an
abstract key type `Q` (Python predicate objects compared by identity)
together with an evaluation function `Q → Doc → Bool` supplied where
the code calls `cond(doc)`.
-/

namespace TinyDB

/-- Document IDs (`document_id_class = int`). -/
abbrev DocId := Int

/-- Document content: a Python mapping, modelled as an insertion-ordered
association list from string keys to integer values. -/
abbrev Doc := List (String × Int)

section AssocList

variable {K V : Type} [DecidableEq K]

/-- `k in d` for a Python dict. -/
def containsKey (l : List (K × V)) (k : K) : Bool :=
  l.any (fun p => p.1 = k)

/-- `d[k]` lookup for a Python dict (`none` models `KeyError`). -/
def lookupKey (l : List (K × V)) (k : K) : Option V :=
  match l with
  | [] => none
  | (k1, v) :: rest => if k1 = k then some v else lookupKey rest k

/-- `del d[k]` / `d.pop(k)`: remove the entry with key `k`. -/
def eraseKey (l : List (K × V)) (k : K) : List (K × V) :=
  match l with
  | [] => []
  | (k1, v) :: rest => if k1 = k then rest else (k1, v) :: eraseKey rest k

/-- `d[k] = v` for a Python dict: replace in place if the key is present
(its position is preserved), otherwise append at the end. -/
def dictSet (l : List (K × V)) (k : K) (v : V) : List (K × V) :=
  match l with
  | [] => [(k, v)]
  | (k1, v1) :: rest =>
      if k1 = k then (k, v) :: rest else (k1, v1) :: dictSet rest k v

/-- Apply `f` to the value stored at key `k` (in place), used for
`table[doc_id].update(fields)` and the callable-update path. -/
def dictApply (l : List (K × V)) (k : K) (f : V → V) : List (K × V) :=
  match l with
  | [] => []
  | (k1, v1) :: rest =>
      if k1 = k then (k1, f v1) :: rest else (k1, v1) :: dictApply rest k f

end AssocList

/-- `d.update(m)` for Python dicts: assign every key of `m` into `d`
in order. -/
def dictUpdate (d m : Doc) : Doc :=
  m.foldl (fun acc p => dictSet acc p.1 p.2) d

/-!  ## LRUCache (`tinydb/utils.py`)

The `OrderedDict` is the association list `cache`: the head is the
oldest (least-recently-used) entry, the last element the
most-recently-used. -/

structure LRUCache (K V : Type) where
  capacity : Option Nat
  cache : List (K × V)
deriving DecidableEq, Repr

namespace LRUCache

variable {K V : Type} [DecidableEq K]

/-- `__contains__`: `return key in self.cache`.  The method reads the
dict and performs no mutation, so the state component is returned
untouched. -/
def containsOp (c : LRUCache K V) (k : K) : Bool × LRUCache K V :=
  (containsKey c.cache k, c)

/-- `__setitem__`: delete a pre-existing entry for the key, insert at
the end, then evict the front (least-recently-used) entry if the
capacity is set and exceeded (`popitem(last=False)`). -/
def set (c : LRUCache K V) (k : K) (v : V) : LRUCache K V :=
  let cache1 := if containsKey c.cache k then eraseKey c.cache k else c.cache
  let cache2 := cache1 ++ [(k, v)]
  match c.capacity with
  | some cap =>
      if cache2.length > cap then { c with cache := cache2.tail }
      else { c with cache := cache2 }
  | none => { c with cache := cache2 }

/-- `__getitem__`: raise `KeyError` when absent (modelled as `none`
with the state untouched); when present, `pop` the entry and re-insert
it at the end (promoting it to most-recently-used), returning its
value. -/
def get (c : LRUCache K V) (k : K) : Option V × LRUCache K V :=
  match lookupKey c.cache k with
  | none => (none, c)
  | some v => (some v, { c with cache := eraseKey c.cache k ++ [(k, v)] })

/-- `__delitem__`. -/
def del (c : LRUCache K V) (k : K) : LRUCache K V :=
  { c with cache := eraseKey c.cache k }

/-- `clear`. -/
def clear (c : LRUCache K V) : LRUCache K V :=
  { c with cache := [] }

/-- `__len__`. -/
def length (c : LRUCache K V) : Nat :=
  c.cache.length

/-- The `lru` property: the key ordering from least- to
most-recently-used. -/
def lru (c : LRUCache K V) : List K :=
  c.cache.map Prod.fst

end LRUCache

/-! ## Table (`tinydb/table.py`)

Storage is modelled with the snapshot semantics of the storage
contract: `read` returns the stored table for this table's name and
`write` overwrites it, so a `Table` instance carries the stored table
directly together with its private in-memory state (`_next_id` and the
query cache). -/

/-- Errors raised by table operations (`ValueError` / `RuntimeError`
messages in the source). -/
inductive Err
  | notAMapping      -- Document is not a Mapping
  | duplicateId      -- Document ID already exists
  | missingCriteria  -- Cannot remove documents without a condition or document IDs
deriving DecidableEq, Repr

/-- An argument passed to `insert` / `insert_multiple`: a `Document`
(a mapping carrying an explicit `doc_id`), a plain mapping, or a
non-mapping value (which fails `isinstance(doc, Mapping)`). -/
inductive InputDoc
  | doc (docId : DocId) (content : Doc)
  | map (content : Doc)
  | notMapping
deriving DecidableEq, Repr

/-- The `fields` argument of `update`: either a mapping merged into
each selected document via `dict.update`, or a callable applied to a
copy of the document. -/
inductive Fields
  | merge (m : Doc)
  | transform (f : Doc → Doc)

/-- Applying `fields` to one document: `table[doc_id].update(fields)`
for a mapping, or `doc = table[doc_id].copy(); fields(doc);
table[doc_id] = doc` for a callable. -/
def applyFields : Fields → Doc → Doc
  | .merge m, d => dictUpdate d m
  | .transform f, d => f d

/-- State of one `Table` instance: the stored table for its name
(insertion-ordered), the `_next_id` cursor (`none` models Python
`None`), and the `_query_cache`.  Cached search results are the lists
of `(doc_id, content)` pairs built by `search`. -/
structure Table (Q : Type) where
  storage : List (DocId × Doc)
  nextId : Option DocId
  cache : LRUCache Q (List (DocId × Doc))
deriving DecidableEq, Repr

section TableOps

variable {Q : Type} [DecidableEq Q]

/-- `max(int(key) for key in table.keys())` over a non-empty table
(the `[]` case is never used by callers). -/
def maxKey : List (DocId × Doc) → DocId
  | [] => 0
  | (k, _) :: rest => rest.foldl (fun m p => max m p.1) k

/-- `_get_next_id`, acting on the stored table (what `_read_table`
returns) and the cursor.  When the cursor is unset it is recomputed
from the stored table as `max + 1` (or `1` when empty) and that very
value is both cached and returned; otherwise the cached value is
returned and the cursor advanced by one. -/
def nextIdStep (storage : List (DocId × Doc)) (nid : Option DocId) :
    DocId × Option DocId :=
  match nid with
  | none =>
      if storage.isEmpty then (1, some 1)
      else
        let m := maxKey storage + 1
        (m, some m)
  | some n => (n, some (n + 1))

/-- `Table._get_next_id`. -/
def Table.getNextId (t : Table Q) : DocId × Table Q :=
  let (i, nid) := nextIdStep t.storage t.nextId
  (i, { t with nextId := nid })

/-- `Table.insert`.  A failed call raises before `storage.write`, so
the error carries the state at the raise point (storage and cache
untouched).  On success the updater has run, the table was written
back and the query cache cleared.

In the source the `Document` branch rebinds `document = dict(document)`
before the updater closure is created, so the updater's
`isinstance(document, Document)` test is always false: on a collision
the explicit ID is silently replaced by `_get_next_id()` and the
`'Document ID already exists'` raise is unreachable.  The embedding
reproduces that: the collision handling is identical for both
branches, only the initial ID differs. -/
def Table.insert (d : InputDoc) (t : Table Q) :
    Except (Err × Table Q) (DocId × Table Q) :=
  match d with
  | .notMapping => .error (.notAMapping, t)
  | .doc docId content =>
      if containsKey t.storage docId then
        let (newId, t1) := t.getNextId
        .ok (newId,
          { t1 with storage := dictSet t1.storage newId content
                    cache := t1.cache.clear })
      else
        .ok (docId,
          { t with storage := dictSet t.storage docId content
                   cache := t.cache.clear })
  | .map content =>
      let (docId, t1) := t.getNextId
      if containsKey t1.storage docId then
        -- collision of an auto-assigned ID: re-allocate silently
        let (newId, t2) := t1.getNextId
        .ok (newId,
          { t2 with storage := dictSet t2.storage newId content
                    cache := t2.cache.clear })
      else
        .ok (docId,
          { t1 with storage := dictSet t1.storage docId content
                    cache := t1.cache.clear })

/-- The allocation loop of `insert_multiple`: validate every element
and build `data`, a list of `(doc_id, content, isDocument)` triples,
threading the `_next_id` cursor.  A non-mapping element raises
`ValueError` there, before any write; the error carries the cursor
state at the raise point. -/
def allocIds (ds : List InputDoc) (storage : List (DocId × Doc))
    (nid : Option DocId) :
    Except (Option DocId) (List (DocId × Doc × Bool) × Option DocId) :=
  match ds with
  | [] => .ok ([], nid)
  | .notMapping :: _ => .error nid
  | .doc docId content :: rest =>
      match allocIds rest storage nid with
      | .error n => .error n
      | .ok (data, n) => .ok ((docId, content, true) :: data, n)
  | .map content :: rest =>
      let (docId, nid1) := nextIdStep storage nid
      match allocIds rest storage nid1 with
      | .error n => .error n
      | .ok (data, n) => .ok ((docId, content, false) :: data, n)

/-- The updater closure of `insert_multiple`: walk `data`, inserting
each document; on a collision a `Document` raises `ValueError`
(before the write, so the error carries only the cursor), while an
auto-assigned ID is re-allocated via `_get_next_id` (which, with an
unset cursor, would re-read the stored table — hence `origStorage`). -/
def insertUpdater (data : List (DocId × Doc × Bool))
    (origStorage table : List (DocId × Doc)) (nid : Option DocId) :
    Except (Option DocId) (List DocId × List (DocId × Doc) × Option DocId) :=
  match data with
  | [] => .ok ([], table, nid)
  | (docId, content, isDoc) :: rest =>
      if containsKey table docId then
        if isDoc then .error nid
        else
          let (newId, nid1) := nextIdStep origStorage nid
          match insertUpdater rest origStorage (dictSet table newId content) nid1 with
          | .error n => .error n
          | .ok (ids, tb, n) => .ok (newId :: ids, tb, n)
      else
        match insertUpdater rest origStorage (dictSet table docId content) nid with
        | .error n => .error n
        | .ok (ids, tb, n) => .ok (docId :: ids, tb, n)

/-- `Table.insert_multiple`. -/
def Table.insertMultiple (ds : List InputDoc) (t : Table Q) :
    Except (Err × Table Q) (List DocId × Table Q) :=
  match allocIds ds t.storage t.nextId with
  | .error nid => .error (.notAMapping, { t with nextId := nid })
  | .ok (data, nid1) =>
      match insertUpdater data t.storage t.storage nid1 with
      | .error nid2 => .error (.duplicateId, { t with nextId := nid2 })
      | .ok (ids, table, nid2) =>
          .ok (ids, { storage := table, nextId := nid2, cache := t.cache.clear })

/-- The `doc_ids` branch of `update`'s updater: for each requested ID
present in the table, record it and apply `fields` in place. -/
def updateByIds (fields : Fields) (ids : List DocId)
    (table : List (DocId × Doc)) : List DocId × List (DocId × Doc) :=
  match ids with
  | [] => ([], table)
  | docId :: rest =>
      if containsKey table docId then
        let table1 := dictApply table docId (applyFields fields)
        let (us, tb) := updateByIds fields rest table1
        (docId :: us, tb)
      else updateByIds fields rest table

/-- The condition branch of `update`'s updater: for each stored
document satisfying the condition (or all of them when no condition
was given), record its ID and apply `fields`. -/
def updateByCond (condHolds : Doc → Bool) (fields : Fields) :
    List (DocId × Doc) → List DocId × List (DocId × Doc)
  | [] => ([], [])
  | (docId, d) :: rest =>
      let (us, tb) := updateByCond condHolds fields rest
      if condHolds d then (docId :: us, (docId, applyFields fields d) :: tb)
      else (us, (docId, d) :: tb)

/-- `Table.update`.  `doc_ids` takes precedence over `cond`; with
neither, every document is updated.  Always runs the update protocol
and clears the query cache. -/
def Table.update (evalQ : Q → Doc → Bool) (fields : Fields)
    (cond : Option Q) (docIds : Option (List DocId)) (t : Table Q) :
    List DocId × Table Q :=
  let (ids, table) :=
    match docIds with
    | some l => updateByIds fields l t.storage
    | none =>
        updateByCond
          (fun d => match cond with | none => true | some c => evalQ c d)
          fields t.storage
  (ids, { t with storage := table, cache := t.cache.clear })

/-- The `doc_ids` branch of `remove`'s updater. -/
def removeByIds (ids : List DocId) (table : List (DocId × Doc)) :
    List DocId × List (DocId × Doc) :=
  match ids with
  | [] => ([], table)
  | docId :: rest =>
      if containsKey table docId then
        let (rs, tb) := removeByIds rest (eraseKey table docId)
        (docId :: rs, tb)
      else removeByIds rest table

/-- `Table.remove`: requires a condition or IDs (`RuntimeError`
otherwise); `doc_ids` takes precedence. -/
def Table.remove (evalQ : Q → Doc → Bool) (cond : Option Q)
    (docIds : Option (List DocId)) (t : Table Q) :
    Except (Err × Table Q) (List DocId × Table Q) :=
  match cond, docIds with
  | none, none => .error (.missingCriteria, t)
  | _, some l =>
      let (rs, table) := removeByIds l t.storage
      .ok (rs, { t with storage := table, cache := t.cache.clear })
  | some c, none =>
      let rs := (t.storage.filter (fun p => evalQ c p.2)).map Prod.fst
      let table := t.storage.filter (fun p => ¬ evalQ c p.2)
      .ok (rs, { t with storage := table, cache := t.cache.clear })

/-- `Table.truncate`: clear the stored table, clear the query cache
and set `_next_id = 1`. -/
def Table.truncate (t : Table Q) : Table Q :=
  { storage := [], nextId := some 1, cache := t.cache.clear }

/-- `Table.search`: serve from the query cache when the condition is
cached (`__contains__` then `__getitem__`, which promotes the entry);
otherwise filter a fresh snapshot, cache the result and return it. -/
def Table.search (evalQ : Q → Doc → Bool) (cond : Q) (t : Table Q) :
    List (DocId × Doc) × Table Q :=
  if containsKey t.cache.cache cond then
    match t.cache.get cond with
    | (some docs, c1) => (docs, { t with cache := c1 })
    | (none, c1) => ([], { t with cache := c1 })
  else
    let docs := t.storage.filter (fun p => evalQ cond p.2)
    (docs, { t with cache := t.cache.set cond docs })

/-- The collection loop of the `doc_ids` branch of `Table.get`:
append `(did, table[did])` for every requested ID present in the
snapshot. -/
def getByIdsGo (storage : List (DocId × Doc)) : List DocId → List (DocId × Doc)
  | [] => []
  | docId :: rest =>
      match lookupKey storage docId with
      | some d => (docId, d) :: getByIdsGo storage rest
      | none => getByIdsGo storage rest

/-- The `doc_ids` branch of `Table.get`: collect the documents found
among the requested IDs, returning `none` when that list is empty
(`return docs if docs else None`). -/
def Table.getByIds (ids : List DocId) (t : Table Q) :
    Option (List (DocId × Doc)) :=
  let docs := getByIdsGo t.storage ids
  if docs.isEmpty then none else some docs

/-- `Table.upsert`.  `docId?` is `some id` when the argument is a
`Document` carrying `doc_id = id`, `none` for a plain mapping.  The
`Document` branch first tries `update` restricted to that ID; when
nothing was updated the code runs `document = dict(document)` and
falls back to `insert` on the resulting plain dict. -/
def Table.upsert (evalQ : Q → Doc → Bool) (docId? : Option DocId)
    (content : Doc) (cond : Option Q) (t : Table Q) :
    Except (Err × Table Q) (List DocId × Table Q) :=
  match docId? with
  | some docId =>
      let (updated, t1) := t.update evalQ (.merge content) none (some [docId])
      if updated.isEmpty then
        match Table.insert (.map content) t1 with
        | .error e => .error e
        | .ok (i, t2) => .ok ([i], t2)
      else .ok (updated, t1)
  | none =>
      let (updated, t1) := t.update evalQ (.merge content) cond none
      if updated.isEmpty then
        match Table.insert (.map content) t1 with
        | .error e => .error e
        | .ok (i, t2) => .ok ([i], t2)
      else .ok (updated, t1)

end TableOps

/-! ## Basic lemmas about the dictionary model -/

section AssocLemmas

variable {K V : Type} [DecidableEq K]

theorem containsKey_cons {k1 : K} {v1 : V} {l : List (K × V)} {k : K} :
    containsKey ((k1, v1) :: l) k = (decide (k1 = k) || containsKey l k) := rfl

theorem lookupKey_cons {k1 : K} {v1 : V} {l : List (K × V)} {k : K} :
    lookupKey ((k1, v1) :: l) k
      = if k1 = k then some v1 else lookupKey l k := rfl

theorem containsKey_of_lookupKey_eq_some {l : List (K × V)} {k : K} {v : V}
    (h : lookupKey l k = some v) : containsKey l k = true := by
  induction l with
  | nil => simp [lookupKey] at h
  | cons p rest ih =>
      obtain ⟨k1, v1⟩ := p
      by_cases hk : k1 = k
      · simp [containsKey_cons, hk]
      · rw [lookupKey_cons, if_neg hk] at h
        simp [containsKey_cons, hk, ih h]

theorem containsKey_eq_false_iff_lookupKey_eq_none {l : List (K × V)} {k : K} :
    containsKey l k = false ↔ lookupKey l k = none := by
  induction l with
  | nil => simp [containsKey, lookupKey]
  | cons p rest ih =>
      obtain ⟨k1, v1⟩ := p
      by_cases hk : k1 = k
      · simp [containsKey_cons, lookupKey_cons, hk]
      · simp [containsKey_cons, lookupKey_cons, hk, ih]

theorem eraseKey_length_le (l : List (K × V)) (k : K) :
    (eraseKey l k).length ≤ l.length := by
  induction l with
  | nil => simp [eraseKey]
  | cons p rest ih =>
      obtain ⟨k1, v1⟩ := p
      by_cases hk : k1 = k
      · simp only [eraseKey, if_pos hk, List.length_cons]
        omega
      · simp only [eraseKey, if_neg hk, List.length_cons]
        omega

theorem eraseKey_append_self_perm {l : List (K × V)} {k : K} {v : V}
    (h : lookupKey l k = some v) : (eraseKey l k ++ [(k, v)]).Perm l := by
  induction l with
  | nil => simp [lookupKey] at h
  | cons p rest ih =>
      obtain ⟨k1, v1⟩ := p
      by_cases hk : k1 = k
      · subst hk
        have h1 : v1 = v := by simpa [lookupKey_cons] using h
        subst h1
        have he : eraseKey ((k1, v1) :: rest) k1 = rest := by simp [eraseKey]
        rw [he]
        exact List.perm_append_singleton _ _
      · rw [lookupKey_cons, if_neg hk] at h
        have he : eraseKey ((k1, v1) :: rest) k = (k1, v1) :: eraseKey rest k := by
          simp [eraseKey, hk]
        rw [he, List.cons_append]
        exact List.Perm.cons _ (ih h)

end AssocLemmas

theorem tail_append_singleton_of_ne_nil {α : Type} {l : List α} {a : α}
    (h : l ≠ []) : (l ++ [a]).tail = l.tail ++ [a] := by
  cases l with
  | nil => exact absurd rfl h
  | cons x xs => simp

/-! ## Concrete states used to evaluate the embedded code -/

def xdoc : Doc := [("x", 1)]

def ydoc : Doc := [("y", 2)]

def adoc : Doc := [("a", 1)]

def bdoc : Doc := [("b", 2)]

def cdoc : Doc := [("c", 3)]

/-- A freshly constructed table over empty storage (query keys are
modelled by `Nat`). -/
def emptyTable : Table Nat := ⟨[], none, ⟨some 10, []⟩⟩

/-- A freshly constructed table over storage that already holds the
document `{x: 1}` under ID 1. -/
def dupTable : Table Nat := ⟨[(1, xdoc)], none, ⟨some 10, []⟩⟩

/-- A query evaluation function (never used on the traced paths). -/
def evalNever : Nat → Doc → Bool := fun _ _ => false

/-- A second, different query evaluation function. -/
def evalAlways : Nat → Doc → Bool := fun _ _ => true

/-! ## Claim theorems -/

/-- C1: the spec says inserting a `Document` whose explicit ID already
exists raises the duplicate-ID error in both `insert` and
`insert_multiple`.  The code violates the `insert` half: because
`insert` rebinds `document = dict(document)` before creating the
updater closure, the updater's `isinstance(document, Document)` test
is always false and the raise is unreachable — the explicit ID is
silently replaced by `_get_next_id()`.  On a table holding ID 1,
`insert(Document({y: 2}, doc_id=1))` succeeds with the fresh ID 2,
while `insert_multiple` on the same input does raise. -/
theorem insert_duplicate_explicit_id_is_silently_reassigned :
    Table.insert (.doc 1 ydoc) dupTable
      = .ok (2, ⟨[(1, xdoc), (2, ydoc)], some 2, ⟨some 10, []⟩⟩)
  ∧ Table.insertMultiple [.doc 1 ydoc] dupTable
      = .error (.duplicateId, dupTable) := by
  exact ⟨rfl, rfl⟩

/-- C2: the spec says `upsert(Document(d, doc_id=id))` on a table
without ID `id` falls back to inserting with that same explicit ID.
The code converts the document to a plain dict before the fallback
insert, so the explicit ID is lost and an auto-allocated ID is used:
on an empty table the first call stores the document under ID 1 (not
5), and a second call inserts a second document under ID 2 instead of
updating in place. -/
theorem upsert_document_fallback_loses_explicit_id :
    Table.upsert evalNever (some 5) xdoc none emptyTable
      = .ok ([1], ⟨[(1, xdoc)], some 1, ⟨some 10, []⟩⟩)
  ∧ Table.upsert evalNever (some 5) ydoc none
        ⟨[(1, xdoc)], some 1, ⟨some 10, []⟩⟩
      = .ok ([2], ⟨[(1, xdoc), (2, ydoc)], some 3, ⟨some 10, []⟩⟩) := by
  exact ⟨rfl, rfl⟩

/-- C3: the spec says auto-assigned IDs are returned in strictly
increasing order.  The lazy-initialization branch of `_get_next_id`
returns the recomputed cursor without advancing it, so the first ID is
allocated twice; on a fresh empty table,
`insert_multiple([{a:1}, {b:2}, {c:3}])` pre-allocates IDs `[1, 1, 2]`
and the in-updater collision retry turns this into the returned list
`[1, 3, 2]`, which is not strictly increasing. -/
theorem insert_multiple_ids_not_strictly_increasing :
    Table.insertMultiple [.map adoc, .map bdoc, .map cdoc] emptyTable
      = .ok ([1, 3, 2],
             ⟨[(1, adoc), (3, bdoc), (2, cdoc)], some 4, ⟨some 10, []⟩⟩) := by
  exact rfl

/-- A concrete populated table with a non-empty query cache and a
cursor far from 1. -/
def t4 : Table Nat := ⟨[(7, xdoc)], some 9, ⟨some 10, [(3, [(7, xdoc)])]⟩⟩

/-- C4 counterexample: the claim says `truncate()` resets the
in-memory ID cursor to the unset ("unknown") state; the code instead
assigns the concrete value 1 to the cursor, so after truncating `t4`
the cursor is `some 1`, not unset. -/
theorem truncate_cursor_not_reset_to_unset :
    (Table.truncate t4).nextId = some 1
  ∧ (Table.truncate t4).nextId ≠ none := by
  exact ⟨rfl, by simp [Table.truncate]⟩

/-- C4 (amended): `truncate()` deletes every document, clears the
query cache, and sets the in-memory ID cursor directly to 1 (rather
than to the unset state); consequently an insert of a plain mapping
immediately after `truncate()` is assigned ID 1. -/
theorem truncate_clears_and_next_insert_gets_id_one
    {Q : Type} [DecidableEq Q] (t : Table Q) (c : Doc) :
    Table.truncate t = ⟨[], some 1, ⟨t.cache.capacity, []⟩⟩
  ∧ Table.insert (.map c) (Table.truncate t)
      = .ok (1, ⟨[(1, c)], some 2, ⟨t.cache.capacity, []⟩⟩) := by
  exact ⟨rfl, rfl⟩

theorem eraseKey_length_of_lookupKey_eq_some {K V : Type} [DecidableEq K]
    {l : List (K × V)} {k : K} {v : V} (h : lookupKey l k = some v) :
    (eraseKey l k).length + 1 = l.length := by
  induction l with
  | nil => simp [lookupKey] at h
  | cons p rest ih =>
      obtain ⟨k1, v1⟩ := p
      by_cases hk : k1 = k
      · simp [eraseKey, hk]
      · rw [lookupKey_cons, if_neg hk] at h
        have := ih h
        simp only [eraseKey, if_neg hk, List.length_cons]
        omega

/-- C6: with the capacity set, `__setitem__` keeps the entry count
within the capacity (evicting exactly the least-recently-used entry
— the head of the order list — when a genuinely new key would exceed
a full cache), `__getitem__` never changes the entry count, and the
spec's concrete scenario holds: capacity 2, set a, set b, get a,
set c leaves exactly the entries for a and c, with b evicted. -/
theorem lru_capacity_never_exceeded {K V : Type} [DecidableEq K]
    (c : LRUCache K V) (cap : Nat) (k : K) (v : V)
    (hcap : c.capacity = some cap) (hlen : c.cache.length ≤ cap) :
    ((c.set k v).cache.length ≤ cap)
  ∧ (containsKey c.cache k = false → c.cache.length = cap → 0 < cap →
       (c.set k v).cache = c.cache.tail ++ [(k, v)])
  ∧ ((c.get k).2.cache.length = c.cache.length)
  ∧ ((((((⟨some 2, []⟩ : LRUCache Nat Nat).set 0 1).set 1 2).get 0).2).set 2 3).cache
      = [(0, 1), (2, 3)] := by
  obtain ⟨copt, l⟩ := c
  simp only at hcap hlen
  subst hcap
  refine ⟨?_, ?_, ?_, rfl⟩
  · have h1 := eraseKey_length_le l k
    simp only [LRUCache.set]
    split
    all_goals split
    all_goals rename_i hcond
    all_goals simp only [List.length_tail, List.length_append,
      List.length_singleton] at hcond ⊢
    all_goals omega
  · intro hnc hfull hpos
    have hne : l ≠ [] := by
      intro hnil
      rw [hnil] at hfull
      simp at hfull
      omega
    simp only [LRUCache.set, hnc, if_neg Bool.false_ne_true]
    have hgt : (l ++ [(k, v)]).length > cap := by
      simp [List.length_append, hfull]
    rw [if_pos hgt]
    exact tail_append_singleton_of_ne_nil hne
  · simp only [LRUCache.get]
    cases h : lookupKey l k with
    | none => rfl
    | some w =>
        simp only [List.length_append, List.length_singleton]
        have := eraseKey_length_of_lookupKey_eq_some h
        omega

/-- C6 witness: the capacity bound and the single-eviction equation
evaluated on concrete full caches of capacity 2. -/
theorem lru_capacity_never_exceeded_witness :
    ((⟨some 2, [(5, 5), (6, 6)]⟩ : LRUCache Nat Nat).set 9 9).cache.length ≤ 2
  ∧ ((⟨some 2, [(5, 5), (6, 6)]⟩ : LRUCache Nat Nat).set 9 9).cache
      = [(6, 6), (9, 9)] := by
  refine ⟨(lru_capacity_never_exceeded _ 2 9 9 rfl (by decide)).1, ?_⟩
  exact (lru_capacity_never_exceeded
    (⟨some 2, [(5, 5), (6, 6)]⟩ : LRUCache Nat Nat) 2 9 9 rfl
    (by decide)).2.1 (by decide) rfl (by decide)

/-- C7: the `__contains__` membership test returns its answer with the
cache state untouched (contents and recency order), while a
successful `__getitem__` returns the stored value and promotes the
key to the most-recently-used position, preserving the cache contents
(as a permutation) and the capacity. -/
theorem lru_contains_pure_and_get_promotes {K V : Type} [DecidableEq K]
    (c : LRUCache K V) (k : K) (v : V) (h : lookupKey c.cache k = some v) :
    (c.containsOp k).2 = c
  ∧ (c.containsOp k).1 = true
  ∧ (c.get k).1 = some v
  ∧ (c.get k).2.capacity = c.capacity
  ∧ (c.get k).2.cache.getLast? = some (k, v)
  ∧ ((c.get k).2.cache).Perm c.cache := by
  refine ⟨rfl, containsKey_of_lookupKey_eq_some h, ?_, ?_, ?_, ?_⟩
  · simp [LRUCache.get, h]
  · simp [LRUCache.get, h]
  · simp only [LRUCache.get, h]
    exact List.getLast?_concat _
  · simp only [LRUCache.get, h]
    exact eraseKey_append_self_perm h

/-- C7 witness: evaluated on a concrete two-entry cache. -/
theorem lru_contains_pure_and_get_promotes_witness :
    ((⟨some 10, [(1, 11), (2, 22)]⟩ : LRUCache Nat Nat).containsOp 1).2
      = ⟨some 10, [(1, 11), (2, 22)]⟩
  ∧ ((⟨some 10, [(1, 11), (2, 22)]⟩ : LRUCache Nat Nat).get 1).1 = some 11 := by
  refine ⟨?_, ?_⟩
  · exact (lru_contains_pure_and_get_promotes
      (⟨some 10, [(1, 11), (2, 22)]⟩ : LRUCache Nat Nat) 1 11 rfl).1
  · exact (lru_contains_pure_and_get_promotes
      (⟨some 10, [(1, 11), (2, 22)]⟩ : LRUCache Nat Nat) 1 11 rfl).2.2.1

theorem allocIds_error_of_mem_notMapping {ds : List InputDoc}
    (h : InputDoc.notMapping ∈ ds) (storage : List (DocId × Doc))
    (nid : Option DocId) : ∃ n, allocIds ds storage nid = .error n := by
  induction ds generalizing nid with
  | nil => simp at h
  | cons d rest ih =>
      cases d with
      | notMapping => exact ⟨nid, rfl⟩
      | doc docId content =>
          have hm : InputDoc.notMapping ∈ rest := by
            rcases List.mem_cons.mp h with h1 | h1
            · exact absurd h1 (by simp)
            · exact h1
          obtain ⟨n, hn⟩ := ih hm nid
          exact ⟨n, by simp [allocIds, hn]⟩
      | map content =>
          have hm : InputDoc.notMapping ∈ rest := by
            rcases List.mem_cons.mp h with h1 | h1
            · exact absurd h1 (by simp)
            · exact h1
          obtain ⟨n, hn⟩ := ih hm (nextIdStep storage nid).2
          exact ⟨n, by simp [allocIds, hn]⟩

/-- C8: a batch passed to `insert_multiple` containing a non-mapping
element (alone or among valid mappings) fails with the invalid-input
`ValueError` raised during validation, before the updater runs: the
stored table and the query cache of the resulting state are those of
the initial state (only the in-memory ID cursor may have advanced for
mappings validated before the bad element). -/
theorem insert_multiple_non_mapping_fails_before_mutation
    {Q : Type} [DecidableEq Q] (ds : List InputDoc) (t : Table Q)
    (h : InputDoc.notMapping ∈ ds) :
    ∃ e t1, Table.insertMultiple ds t = .error (e, t1)
      ∧ e = Err.notAMapping ∧ t1.storage = t.storage ∧ t1.cache = t.cache := by
  obtain ⟨n, hn⟩ := allocIds_error_of_mem_notMapping h t.storage t.nextId
  refine ⟨.notAMapping, { t with nextId := n }, ?_, rfl, rfl, rfl⟩
  simp [Table.insertMultiple, hn]

/-- C8 witness: a batch of one valid mapping followed by a non-mapping
element fails without touching the stored table or the cache. -/
theorem insert_multiple_non_mapping_fails_before_mutation_witness :
    ∃ e t1, Table.insertMultiple [.map xdoc, .notMapping] dupTable
        = .error (e, t1)
      ∧ e = Err.notAMapping ∧ t1.storage = dupTable.storage
      ∧ t1.cache = dupTable.cache :=
  insert_multiple_non_mapping_fails_before_mutation
    [.map xdoc, .notMapping] dupTable (by simp)

theorem getByIdsGo_eq_filterMap (storage : List (DocId × Doc))
    (ids : List DocId) :
    getByIdsGo storage ids
      = ids.filterMap (fun i => (lookupKey storage i).map (fun d => (i, d))) := by
  induction ids with
  | nil => rfl
  | cons i rest ih =>
      cases h : lookupKey storage i with
      | none => simp [getByIdsGo, h, ih]
      | some d => simp [getByIdsGo, h, ih]

/-- C9: `get` called with a list of document IDs returns exactly the
documents found among the requested IDs in the current snapshot (in
request order, paired with their IDs), and returns `None` exactly
when no requested ID is present — in particular an empty request list
also yields `None`. -/
theorem get_by_ids_characterization {Q : Type} [DecidableEq Q]
    (t : Table Q) (ids : List DocId) :
    (Table.getByIds ids t = none ↔ ∀ i ∈ ids, containsKey t.storage i = false)
  ∧ (∀ l, Table.getByIds ids t = some l →
       l ≠ []
       ∧ l = ids.filterMap (fun i => (lookupKey t.storage i).map (fun d => (i, d))))
  ∧ Table.getByIds ([] : List DocId) t = none := by
  refine ⟨?_, ?_, rfl⟩
  · rw [Table.getByIds]
    simp only [getByIdsGo_eq_filterMap]
    constructor
    · intro h i hi
      rw [containsKey_eq_false_iff_lookupKey_eq_none]
      by_cases hnil :
          (ids.filterMap
            (fun i => (lookupKey t.storage i).map (fun d => (i, d)))).isEmpty
      · rw [List.isEmpty_iff, List.filterMap_eq_nil_iff] at hnil
        have h2 := hnil i hi
        cases hl : lookupKey t.storage i with
        | none => rfl
        | some d => rw [hl] at h2; simp at h2
      · rw [if_neg hnil] at h
        exact absurd h (by simp)
    · intro hall
      have hmap :
          ∀ i ∈ ids, (lookupKey t.storage i).map (fun d => (i, d)) = none := by
        intro i hi
        have h2 := hall i hi
        rw [containsKey_eq_false_iff_lookupKey_eq_none] at h2
        simp [h2]
      rw [if_pos (List.isEmpty_iff.mpr (List.filterMap_eq_nil_iff.mpr hmap))]
  · intro l hl
    rw [Table.getByIds] at hl
    simp only [getByIdsGo_eq_filterMap] at hl
    by_cases hnil :
        (ids.filterMap
          (fun i => (lookupKey t.storage i).map (fun d => (i, d)))).isEmpty
    · rw [if_pos hnil] at hl
      exact absurd hl (by simp)
    · rw [if_neg hnil] at hl
      have hl2 := Option.some_inj.mp hl
      subst hl2
      refine ⟨?_, rfl⟩
      intro hcontra
      exact hnil (by simp [hcontra])

/-- A populated table used to evaluate `get` with ID lists. -/
def t9 : Table Nat := ⟨[(1, xdoc), (2, ydoc)], none, ⟨some 10, []⟩⟩

/-- C9 witness: a request list with no matching ID yields `None`, as
does the empty request list. -/
theorem get_by_ids_characterization_witness :
    Table.getByIds [(5 : DocId), 6] t9 = none
  ∧ Table.getByIds ([] : List DocId) t9 = none :=
  ⟨(get_by_ids_characterization t9 [5, 6]).1.mpr (by decide),
   (get_by_ids_characterization t9 [5, 6]).2.2⟩

theorem updateByCond_true (fields : Fields) (l : List (DocId × Doc)) :
    updateByCond (fun _ => true) fields l
      = (l.map Prod.fst, l.map (fun p => (p.1, applyFields fields p.2))) := by
  induction l with
  | nil => rfl
  | cons p rest ih => simp [updateByCond, ih]

/-- C10: `update` called with a fields argument but neither a
condition nor `doc_ids` does not raise: it selects every stored
document, applies the fields to each, returns the list of all
document IDs, and clears the query cache; the ID cursor is
untouched. -/
theorem update_without_criteria_updates_all
    {Q : Type} [DecidableEq Q] (evalQ : Q → Doc → Bool) (fields : Fields)
    (t : Table Q) :
    (t.update evalQ fields none none).1 = t.storage.map Prod.fst
  ∧ (t.update evalQ fields none none).2.storage
      = t.storage.map (fun p => (p.1, applyFields fields p.2))
  ∧ (t.update evalQ fields none none).2.cache.cache = []
  ∧ (t.update evalQ fields none none).2.nextId = t.nextId := by
  refine ⟨?_, ?_, rfl, rfl⟩
  · show (updateByCond (fun _ => true) fields t.storage).1 = _
    rw [updateByCond_true]
  · show (updateByCond (fun _ => true) fields t.storage).2 = _
    rw [updateByCond_true]

theorem insert_ok_cache {Q : Type} [DecidableEq Q] {d : InputDoc}
    {t : Table Q} {i : DocId} {t1 : Table Q}
    (h : Table.insert d t = .ok (i, t1)) : t1.cache.cache = [] := by
  cases d with
  | notMapping => simp [Table.insert] at h
  | doc docId content =>
      simp only [Table.insert] at h
      split at h
      all_goals
        injection h with hpair
        injection hpair with h1 h2
        rw [← h2]
        exact rfl
  | map content =>
      simp only [Table.insert] at h
      split at h
      all_goals
        injection h with hpair
        injection hpair with h1 h2
        rw [← h2]
        exact rfl

theorem insertMultiple_ok_cache {Q : Type} [DecidableEq Q]
    {ds : List InputDoc} {t : Table Q} {ids : List DocId} {t1 : Table Q}
    (h : Table.insertMultiple ds t = .ok (ids, t1)) : t1.cache.cache = [] := by
  simp only [Table.insertMultiple] at h
  split at h
  · simp at h
  · split at h
    · simp at h
    · injection h with hpair
      injection hpair with h1 h2
      rw [← h2]
      exact rfl

theorem remove_ok_cache {Q : Type} [DecidableEq Q] {f : Q → Doc → Bool}
    {cond : Option Q} {docIds : Option (List DocId)} {t : Table Q}
    {rs : List DocId} {t1 : Table Q}
    (h : Table.remove f cond docIds t = .ok (rs, t1)) : t1.cache.cache = [] := by
  cases cond <;> cases docIds <;> simp only [Table.remove] at h
  · exact absurd h (by simp)
  all_goals
    injection h with hpair
    injection hpair with h1 h2
    rw [← h2]
    exact rfl

/-- C5: a `search` whose condition is in the query cache returns the
cached list — the same snapshot stored at caching time, independent of
the evaluation function (the predicate is not re-evaluated) and
leaving storage and the ID cursor untouched; every mutating operation
(`insert`, `insert_multiple`, `update`, `remove`, `truncate`) leaves
an empty query cache behind; and a `search` on an empty cache
recomputes its result by filtering a fresh storage snapshot. -/
theorem search_cache_hit_and_mutation_invalidation {Q : Type} [DecidableEq Q]
    (f g : Q → Doc → Bool) (q : Q) (t : Table Q) (v : List (DocId × Doc))
    (d : InputDoc) (ds : List InputDoc) (fields : Fields)
    (cond : Option Q) (docIds : Option (List DocId)) :
    (lookupKey t.cache.cache q = some v →
       (Table.search f q t).1 = v
     ∧ (Table.search f q t).2.storage = t.storage
     ∧ (Table.search f q t).2.nextId = t.nextId
     ∧ Table.search f q t = Table.search g q t)
  ∧ (t.cache.cache = [] →
       (Table.search f q t).1 = t.storage.filter (fun p => f q p.2))
  ∧ (∀ i t1, Table.insert d t = .ok (i, t1) → t1.cache.cache = [])
  ∧ (∀ ids t1, Table.insertMultiple ds t = .ok (ids, t1) → t1.cache.cache = [])
  ∧ ((t.update f fields cond docIds).2.cache.cache = [])
  ∧ (∀ rs t1, Table.remove f cond docIds t = .ok (rs, t1) → t1.cache.cache = [])
  ∧ (Table.truncate t).cache.cache = [] := by
  refine ⟨?_, ?_, fun i t1 h => insert_ok_cache h,
    fun ids t1 h => insertMultiple_ok_cache h, by cases docIds <;> rfl,
    fun rs t1 h => remove_ok_cache h, rfl⟩
  · intro h
    have hc : containsKey t.cache.cache q = true :=
      containsKey_of_lookupKey_eq_some h
    have hget : t.cache.get q
        = (some v, ⟨t.cache.capacity, eraseKey t.cache.cache q ++ [(q, v)]⟩) := by
      simp [LRUCache.get, h]
    refine ⟨?_, ?_, ?_, ?_⟩ <;> simp [Table.search, hc, hget]
  · intro h
    have hc : containsKey t.cache.cache q = false := by rw [h]; rfl
    simp [Table.search, hc]

/-- A table whose query cache holds an entry for the query key 3. -/
def cachedTable : Table Nat := ⟨[(1, xdoc)], some 2, ⟨some 10, [(3, [(1, xdoc)])]⟩⟩

/-- C5 witness: on `cachedTable` a search for the cached key 3 returns
the cached list even under an evaluation function rejecting every
document, and an unconditional `update` leaves the cache empty. -/
theorem search_cache_hit_and_mutation_invalidation_witness :
    (Table.search evalNever 3 cachedTable).1 = [(1, xdoc)]
  ∧ (Table.update evalNever (.merge []) none none cachedTable).2.cache.cache
      = [] := by
  refine ⟨?_, ?_⟩
  · exact ((search_cache_hit_and_mutation_invalidation evalNever evalAlways 3
      cachedTable [(1, xdoc)] (.map []) [] (.merge []) none none).1 rfl).1
  · exact (search_cache_hit_and_mutation_invalidation evalNever evalAlways 3
      cachedTable [(1, xdoc)] (.map []) [] (.merge []) none none).2.2.2.2.1

end TinyDB
